import Mathlib

/-!
Verification of the line-reminder-cloud notification bot.

The Python sources are embedded shallowly:

* strings are Lean `String` / `List Char`; `str.strip()` is `pyStrip`
  (the regex classes `\d` / `\s` and Python's notion of whitespace are
  modelled over the ASCII range via `Char.isDigit` / `Char.isWhitespace`,
  which covers every character the program's conventions use);
* `daily_push.extract_patient_name` and
  `monthly_stats.count_session_from_title` are translated as pure
  functions over the title string, with the regex searches
  (`[\d\(\（]`, `(45...)`, `(\d)(?:\s*\+\s*(\d))+`, `(\d)\s*$`)
  unfolded into explicit scans with the same leftmost-match semantics;
* `datetime` values are a `Date` structure (year/month/day in the
  operator's timezone; all datetimes the monthly job builds are at
  midnight, so the time of day is dropped);
* the Google Sheet behind `sheets_utils` is a list of rows, the LINE
  push API is an oracle `String → Option String` returning `some err`
  when `push_message` raises and `none` when it succeeds.
-/

namespace LineReminder

/-- `\s` / `str.strip` character class (ASCII whitespace). -/
def isWs (c : Char) : Bool := c.isWhitespace

/-- Drop leading whitespace (the left half of Python's `str.strip()`). -/
def dl (l : List Char) : List Char := l.dropWhile isWs

/-- Drop trailing whitespace (the right half of Python's `str.strip()`). -/
def dt (l : List Char) : List Char := (dl l.reverse).reverse

/-- Python's `str.strip()` on the character list of a string. -/
def pyStrip (l : List Char) : List Char := dt (dl l)

/-- `s.split("-", 1)[1]`: everything after the first hyphen.
Only used under the guard `"-" in s`. -/
def afterFirstHyphen : List Char → List Char
  | [] => []
  | c :: cs => if c = '-' then cs else afterFirstHyphen cs

/-- The character class `[\d\(\（]` of `daily_push.extract_patient_name`:
a digit, a half-width or a full-width opening parenthesis. -/
def isCut (c : Char) : Bool := c.isDigit || c = '(' || c = '（'

/-- Core of `daily_push.extract_patient_name` (lines 39-69): strip, take
the part after the first hyphen when one is present, strip, truncate at
the first character matching `[\d\(\（]` (`re.search` + slice), strip. -/
def extractCore (l : List Char) : List Char :=
  pyStrip
    ((pyStrip
        (if (pyStrip l).contains '-' then afterFirstHyphen (pyStrip l)
         else pyStrip l)).takeWhile fun c => !(isCut c))

/-- `daily_push.extract_patient_name` on Lean strings. -/
def extract_patient_name (summary : String) : String :=
  String.mk (extractCore summary.data)

/-- The name-extraction rule as the specification words it: take the part
after the first hyphen of the (unstripped) title when the title contains
a hyphen, otherwise the whole title; trim; truncate at the first digit or
opening parenthesis; trim again. -/
def extractNameSpec (l : List Char) : List Char :=
  pyStrip
    ((pyStrip
        (if l.contains '-' then afterFirstHyphen l else l)).takeWhile
      fun c => !(isCut c))

/-- `re.search(pat, s) is not None` for a literal pattern: some tail of
`s` starts with `pat`. -/
def containsSub (pat l : List Char) : Bool :=
  l.tails.any (fun t => List.isPrefixOf pat t)

/-- `RE_45.search(t)`: the pattern `45\s*(?:min|分鐘|分)?` matches
somewhere iff the literal `45` occurs (the tail is optional). -/
def contains45 (l : List Char) : Bool := containsSub ['4', '5'] l

/-- After the leading digit of `RE_MULTI`, the rest `(?:\s*\+\s*(\d))+`
must match at least one `\s*\+\s*\d` group here. -/
def multiRest (l : List Char) : Bool :=
  match l.dropWhile isWs with
  | '+' :: l2 =>
    match l2.dropWhile isWs with
    | c :: _ => c.isDigit
    | [] => false
  | _ => false

/-- `RE_MULTI.search(t)` (`(\d)(?:\s*\+\s*(\d))+`): scan left to right
for the first digit followed by at least one `\s*\+\s*\d` group; return
the tail of the string from the match start (`t[m_multi.start():]`). -/
def findMultiStart : List Char → Option (List Char)
  | [] => none
  | c :: cs =>
    if c.isDigit && multiRest cs then some (c :: cs) else findMultiStart cs

/-- `int(x)` on a single digit character. -/
def digitVal (c : Char) : Nat := c.toNat - '0'.toNat

/-- `re.search(r"(\d)\s*$", t)` matches iff the last non-whitespace
character exists and is a digit; this returns that last non-whitespace
character. -/
def lastNonWs (l : List Char) : Option Char := (dl l.reverse).head?

/-- `monthly_stats.count_session_from_title` (lines 146-180): the
`(one-hour, half-hour, 45-minute)` increments for one event title
`t = title.strip()`: a found `45` wins, then a `+`-compound (counting
every digit from the match start to the end of the string), then a
single trailing digit, then the half-hour default. -/
def count_session_from_title (title : String) : Nat × Nat × Nat :=
  if contains45 (pyStrip title.data) then (0, 0, 1)
  else
    match findMultiStart (pyStrip title.data) with
    | some suf =>
      (((suf.filter fun c => c.isDigit).map digitVal).count 2,
       ((suf.filter fun c => c.isDigit).map digitVal).count 1, 0)
    | none =>
      match lastNonWs (pyStrip title.data) with
      | some c =>
        if c.isDigit then
          if digitVal c = 2 then (1, 0, 0)
          else if digitVal c = 1 then (0, 1, 0)
          else (0, 1, 0)
        else (0, 1, 0)
      | none => (0, 1, 0)

/-- A calendar day in the operator's timezone.  The monthly job only
builds midnight datetimes, so the time of day carries no information. -/
structure Date where
  year : Nat
  month : Nat
  day : Nat
deriving DecidableEq, Repr

def isLeap (y : Nat) : Bool := (y % 4 = 0 && y % 100 ≠ 0) || y % 400 = 0

def daysInMonth (y m : Nat) : Nat :=
  if m = 2 then (if isLeap y then 29 else 28)
  else if m = 4 ∨ m = 6 ∨ m = 9 ∨ m = 11 then 30
  else 31

/-- The dates Python's `datetime` can represent for a given month. -/
def Date.Valid (d : Date) : Prop :=
  1 ≤ d.month ∧ d.month ≤ 12 ∧ 1 ≤ d.day ∧ d.day ≤ daysInMonth d.year d.month

instance (d : Date) : Decidable d.Valid := by
  unfold Date.Valid; infer_instance

/-- `dt + timedelta(days=1)` on valid dates. -/
def nextDay (d : Date) : Date :=
  if d.day < daysInMonth d.year d.month then ⟨d.year, d.month, d.day + 1⟩
  else if d.month < 12 then ⟨d.year, d.month + 1, 1⟩
  else ⟨d.year + 1, 1, 1⟩

/-- `monthly_stats.is_last_day_of_month` (lines 64-67): tomorrow falls
in a different month. -/
def is_last_day_of_month (d : Date) : Bool := (nextDay d).month ≠ d.month

/-- Lexicographic order on dates: the order `datetime` comparison
induces on the midnight datetimes the monthly job builds. -/
def dateLt (a b : Date) : Prop :=
  a.year < b.year ∨
    (a.year = b.year ∧
      (a.month < b.month ∨ (a.month = b.month ∧ a.day < b.day)))

/-- `monthly_stats.month_range` (lines 55-62): the window
`[first of the month, first of the next month)`, both at midnight. -/
def month_range (d : Date) : Date × Date :=
  if d.month = 12 then (⟨d.year, d.month, 1⟩, ⟨d.year + 1, 1, 1⟩)
  else (⟨d.year, d.month, 1⟩, ⟨d.year, d.month + 1, 1⟩)

/-- The guard of `monthly_stats.main` (lines 193-201): on a
non-last day the run returns before fetching anything; otherwise it
fetches the `month_range` window of `now`. -/
def monthly_main_window (d : Date) : Option (Date × Date) :=
  if is_last_day_of_month d then some (month_range d) else none

/-- An event as the aggregation passes see it (the fields they read). -/
structure Ev where
  summary : String
  start : String
deriving DecidableEq, Repr

/-- The loop body of `monthly_stats.summarize_month`: add one event's
classifier increments onto the running `(one_h, half_h, min45)`. -/
def stepT (acc : Nat × Nat × Nat) (ev : Ev) : Nat × Nat × Nat :=
  (acc.1 + (count_session_from_title ev.summary).1,
   acc.2.1 + (count_session_from_title ev.summary).2.1,
   acc.2.2 + (count_session_from_title ev.summary).2.2)

/-- `monthly_stats.summarize_month` (lines 182-190): fold the classifier
over every fetched event, summing the three buckets. -/
def summarize_month (events : List Ev) : Nat × Nat × Nat :=
  events.foldl stepT (0, 0, 0)

/-- Componentwise sum of two bucket triples. -/
def addT (a b : Nat × Nat × Nat) : Nat × Nat × Nat :=
  (a.1 + b.1, a.2.1 + b.2.1, a.2.2 + b.2.2)

/-- `str.strip()` on Lean strings. -/
def strip (s : String) : String := String.mk (pyStrip s.data)

/-- One row of the Patients sheet (range `A2:C`), raw cell text. -/
structure Row where
  dn : String
  rn : String
  uid : String
deriving DecidableEq, Repr

/-- One record `read_patients` returns. -/
structure Patient where
  displayName : String
  realName : String
  userId : String
deriving DecidableEq, Repr

/-- `sheets_utils.read_patients` (lines 40-52): strip each cell and keep
only rows whose stripped `userId` is non-empty. -/
def read_patients (sheet : List Row) : List Patient :=
  sheet.filterMap fun r =>
    if strip r.uid ≠ "" then some ⟨strip r.dn, strip r.rn, strip r.uid⟩
    else none

/-- `sheets_utils.upsert_patient` (lines 54-78): look for `user_id`
among the records `read_patients` returns; if absent, append a row with
an empty `realName`; if found at (filtered) index `i`, overwrite sheet
row `i + 2`, i.e. list index `i`, keeping that record's `realName`. -/
def upsert_patient (display_name user_id : String) (sheet : List Row) :
    List Row :=
  match (read_patients sheet).findIdx? (fun r => r.userId = user_id) with
  | none => sheet ++ [⟨display_name, "", user_id⟩]
  | some i =>
    sheet.set i
      ⟨display_name,
        ((read_patients sheet).getD i ⟨"", "", ""⟩).realName, user_id⟩

/-- A Python dict built from a list of key-value pairs (a later pair
with the same key overwrites an earlier one), read with `.get`. -/
def dget (entries : List (String × String)) (k : String) : Option String :=
  entries.foldl (fun acc e => if e.1 = k then some e.2 else acc) none

/-- The `by_display` comprehension of `daily_push.main` (line 122):
keep patients with a truthy `userId`, key on the stripped
`displayName`, value the stripped `userId`. -/
def by_display_entries (pats : List Patient) : List (String × String) :=
  pats.filterMap (fun p =>
    if p.userId ≠ "" then some (strip p.displayName, strip p.userId)
    else none)

/-- The `by_real` comprehension of `daily_push.main` (line 123). -/
def by_real_entries (pats : List Patient) : List (String × String) :=
  pats.filterMap (fun p =>
    if p.userId ≠ "" then some (strip p.realName, strip p.userId)
    else none)

/-- Python truthiness of an optional string (`None` and `""` are falsy). -/
def truthy : Option String → Bool
  | none => false
  | some s => s ≠ ""

/-- Python `a or b`. -/
def pyOr (a b : Option String) : Option String := if truthy a then a else b

/-- Line 139 of `daily_push.main`:
`uid = by_real.get(name) or by_display.get(name)`. -/
def lookupUid (byReal byDisp : List (String × String)) (name : String) :
    Option String :=
  pyOr (dget byReal name) (dget byDisp name)

/-- One iteration of the event loop of `daily_push.main` (lines
127-146), accumulating the `not_found` list.  `pushRes` is the LINE
push API: `none` when `push_message` succeeds for that recipient,
`some e` when it raises an exception rendered as `e`. -/
def processEvent (byReal byDisp : List (String × String))
    (pushRes : String → Option String) (nf : List String) (ev : Ev) :
    List String :=
  if ev.summary.data.contains '-' = false then nf
  else if extract_patient_name ev.summary = "" then nf
  else
    match lookupUid byReal byDisp (extract_patient_name ev.summary) with
    | some u =>
      if u ≠ "" then
        match pushRes u with
        | none => nf
        | some e =>
          nf ++ [extract_patient_name ev.summary ++ "（推播失敗：" ++ e ++ "）"]
      else nf ++ [extract_patient_name ev.summary]
    | none => nf ++ [extract_patient_name ev.summary]

/-- The `not_found` list after the whole event loop of
`daily_push.main`. -/
def daily_not_found (byReal byDisp : List (String × String))
    (pushRes : String → Option String) (events : List Ev) : List String :=
  events.foldl (processEvent byReal byDisp pushRes) []

/-- Lexicographic comparison of character lists by code point: the
order Python's `sorted` uses on the strings of the follow-up list. -/
def strLeB : List Char → List Char → Bool
  | [], _ => true
  | _ :: _, [] => false
  | a :: as, b :: bs =>
    if a.toNat < b.toNat then true
    else if b.toNat < a.toNat then false
    else strLeB as bs

/-- Python's `s1 <= s2` on strings (code-point lexicographic). -/
def pyStrLe (a b : String) : Bool := strLeB a.data b.data

/-- Python's `sorted(set(xs))` on strings: the distinct elements in
ascending lexicographic order. -/
def sortedDedup (l : List String) : List String :=
  l.dedup.insertionSort fun a b => pyStrLe a b

/-- Lines 149-151 of `daily_push.main`: append the follow-up section to
the operator digest when `not_found` is non-empty. -/
def build_admin_text (base : String) (nf : List String) : String :=
  if nf = [] then base
  else
    base ++ "\n\n【待補名單】\n- " ++
      String.intercalate "\n- " (sortedDedup nf)

/-- The admin delivery loop (`daily_push.main` lines 153-157 and
`monthly_stats.main` lines 219-224): push to every configured
recipient, catching each failure and continuing.  Returns the list of
recipients whose push succeeded; the function is total, so the loop
always runs to completion. -/
def send_admin_report (pushRes : String → Option String) :
    List String → List String
  | [] => []
  | u :: rest =>
    match pushRes u with
    | none => u :: send_admin_report pushRes rest
    | some _ => send_admin_report pushRes rest

/-! ### Whitespace-stripping lemmas -/

theorem dropWhile_append_all {α : Type} {p : α → Bool} {a : List α}
    (b : List α) (h : ∀ c ∈ a, p c = true) :
    (a ++ b).dropWhile p = b.dropWhile p := by
  induction a with
  | nil => rfl
  | cons x xs ih =>
    have hx : p x = true := h x (List.mem_cons_self x xs)
    rw [List.cons_append, List.dropWhile_cons, if_pos hx]
    exact ih fun c hc => h c (List.mem_cons_of_mem x hc)

theorem dropWhile_append_stop {α : Type} {p : α → Bool} {a : List α}
    (b : List α) (h : a.dropWhile p ≠ []) :
    (a ++ b).dropWhile p = a.dropWhile p ++ b := by
  induction a with
  | nil => simp at h
  | cons x xs ih =>
    by_cases hx : p x = true
    · rw [List.dropWhile_cons, if_pos hx] at h
      rw [List.cons_append, List.dropWhile_cons, if_pos hx,
        List.dropWhile_cons, if_pos hx]
      exact ih h
    · rw [List.cons_append, List.dropWhile_cons, if_neg hx,
        List.dropWhile_cons, if_neg hx, List.cons_append]

theorem dropWhile_head_not {α : Type} {p : α → Bool} {l : List α} {c : α}
    {r : List α} (h : l.dropWhile p = c :: r) : p c = false := by
  induction l with
  | nil => simp at h
  | cons x xs ih =>
    by_cases hx : p x = true
    · rw [List.dropWhile_cons, if_pos hx] at h
      exact ih h
    · rw [List.dropWhile_cons, if_neg hx] at h
      cases h
      simpa using hx

theorem dropWhile_idem {α : Type} {p : α → Bool} (l : List α) :
    (l.dropWhile p).dropWhile p = l.dropWhile p := by
  rcases h : l.dropWhile p with _ | ⟨c, r⟩
  · rfl
  · rw [List.dropWhile_cons, if_neg]
    simp [dropWhile_head_not h]

theorem dl_cons_ws {c : Char} (m : List Char) (h : isWs c = true) :
    dl (c :: m) = dl m := by
  rw [dl, List.dropWhile_cons, if_pos h]; rfl

theorem dl_cons_not_ws {c : Char} (m : List Char) (h : isWs c = false) :
    dl (c :: m) = c :: m := by
  rw [dl, List.dropWhile_cons, if_neg (by simp [h])]

theorem dl_idem (l : List Char) : dl (dl l) = dl l := dropWhile_idem l

theorem dt_idem (l : List Char) : dt (dt l) = dt l := by
  unfold dt
  rw [List.reverse_reverse, dl_idem]

theorem mem_dl_iff {c : Char} (h : isWs c = false) (l : List Char) :
    c ∈ dl l ↔ c ∈ l := by
  constructor
  · exact fun hc => (List.dropWhile_suffix isWs).subset hc
  · intro hc
    rw [← List.takeWhile_append_dropWhile isWs l] at hc
    rcases List.mem_append.mp hc with h1 | h1
    · have := List.mem_takeWhile_imp h1
      rw [h] at this
      cases this
    · exact h1

theorem mem_dt_iff {c : Char} (h : isWs c = false) (l : List Char) :
    c ∈ dt l ↔ c ∈ l := by
  unfold dt
  rw [List.mem_reverse, mem_dl_iff h, List.mem_reverse]

theorem mem_pyStrip_iff {c : Char} (h : isWs c = false) (l : List Char) :
    c ∈ pyStrip l ↔ c ∈ l := by
  unfold pyStrip
  rw [mem_dt_iff h, mem_dl_iff h]

theorem dt_append_ws (x : List Char) {w : List Char}
    (hw : ∀ c ∈ w, isWs c = true) : dt (x ++ w) = dt x := by
  unfold dt dl
  rw [List.reverse_append,
    dropWhile_append_all x.reverse fun c hc => hw c (List.mem_reverse.mp hc)]

theorem dl_append_stop {x : List Char} (w : List Char) (h : dl x ≠ []) :
    dl (x ++ w) = dl x ++ w := dropWhile_append_stop w h

theorem pyStrip_append_ws (x : List Char) {w : List Char}
    (hw : ∀ c ∈ w, isWs c = true) : pyStrip (x ++ w) = pyStrip x := by
  unfold pyStrip
  rcases h : dl x with _ | ⟨c, m⟩
  · have hx : ∀ c ∈ x, isWs c = true := List.dropWhile_eq_nil_iff.mp h
    have h2 : dl (x ++ w) = [] := by
      apply List.dropWhile_eq_nil_iff.mpr
      intro a ha
      rcases List.mem_append.mp ha with h1 | h1
      exacts [hx a h1, hw a h1]
    rw [h2]
  · rw [dl_append_stop w (by rw [h]; simp), h, dt_append_ws _ hw]

theorem dt_cons_cases (c : Char) (m : List Char) :
    dt (c :: m) = [] ∨ ∃ m2, dt (c :: m) = c :: m2 := by
  unfold dt
  rcases h : dl m.reverse with _ | ⟨d, r⟩
  · have h0 : dl (c :: m).reverse = dl [c] := by
      rw [List.reverse_cons]
      exact dropWhile_append_all [c] (List.dropWhile_eq_nil_iff.mp h)
    by_cases hc : isWs c = true
    · left
      rw [h0, dl, List.dropWhile_cons, if_pos hc]
      rfl
    · right
      refine ⟨[], ?_⟩
      rw [h0, dl, List.dropWhile_cons, if_neg (by simp [hc])]
      rfl
  · right
    have h0 : dl (c :: m).reverse = (d :: r) ++ [c] := by
      rw [List.reverse_cons, dl_append_stop [c] (by rw [h]; simp), h]
    refine ⟨(d :: r).reverse, ?_⟩
    rw [h0, List.reverse_append]
    rfl

theorem pyStrip_idem (l : List Char) : pyStrip (pyStrip l) = pyStrip l := by
  unfold pyStrip
  rcases h : dl l with _ | ⟨c, m⟩
  · rfl
  · have hc : isWs c = false := dropWhile_head_not h
    rcases dt_cons_cases c m with h2 | ⟨m2, h2⟩
    · rw [h2]; rfl
    · rw [h2, dl_cons_not_ws m2 hc, ← h2, dt_idem]

theorem pyStrip_isInfix (l : List Char) : pyStrip l <:+: l := by
  have h1 : dl l <:+ l := List.dropWhile_suffix isWs
  have h2 : dt (dl l) <+: dl l := by
    have hs : dl (dl l).reverse <:+ (dl l).reverse := List.dropWhile_suffix isWs
    have := List.reverse_prefix.mpr hs
    simpa [dt] using this
  exact h2.isInfix.trans h1.isInfix

/-! ### Hyphen-splitting lemmas for the name extractor -/

theorem contains_pyStrip {c : Char} (h : isWs c = false) (l : List Char) :
    (pyStrip l).contains c = l.contains c := by
  rw [Bool.eq_iff_iff]
  have h1 : (pyStrip l).contains c = true ↔ c ∈ pyStrip l := List.elem_iff
  have h2 : l.contains c = true ↔ c ∈ l := List.elem_iff
  rw [h1, h2]
  exact mem_pyStrip_iff h l

theorem afterFirstHyphen_dl {l : List Char} (h : '-' ∈ l) :
    afterFirstHyphen (dl l) = afterFirstHyphen l := by
  induction l with
  | nil => simp at h
  | cons c cs ih =>
    by_cases hc : c = '-'
    · subst hc
      rw [dl_cons_not_ws cs (by decide)]
    · have h2 : '-' ∈ cs := by
        rcases List.mem_cons.mp h with h1 | h1
        · exact absurd h1.symm hc
        · exact h1
      by_cases hw : isWs c = true
      · rw [dl_cons_ws cs hw, ih h2, afterFirstHyphen, if_neg hc]
      · rw [dl_cons_not_ws cs (by simpa using hw)]

theorem afterFirstHyphen_append {a : List Char} (b : List Char)
    (h : '-' ∈ a) : afterFirstHyphen (a ++ b) = afterFirstHyphen a ++ b := by
  induction a with
  | nil => simp at h
  | cons c cs ih =>
    by_cases hc : c = '-'
    · subst hc
      rw [List.cons_append, afterFirstHyphen, if_pos rfl,
        afterFirstHyphen, if_pos rfl]
    · have h2 : '-' ∈ cs := by
        rcases List.mem_cons.mp h with h1 | h1
        · exact absurd h1.symm hc
        · exact h1
      rw [List.cons_append, afterFirstHyphen, if_neg hc,
        afterFirstHyphen, if_neg hc, ih h2]

theorem extract_strip_commute {l : List Char} (h : '-' ∈ l) :
    pyStrip (afterFirstHyphen (pyStrip l)) = pyStrip (afterFirstHyphen l) := by
  have hmem : '-' ∈ dl l := (mem_dl_iff (by decide) l).mpr h
  have hsplit : dl l = dt (dl l) ++ ((dl l).reverse.takeWhile isWs).reverse := by
    have h0 : (dl l).reverse.takeWhile isWs ++ (dl l).reverse.dropWhile isWs
        = (dl l).reverse := List.takeWhile_append_dropWhile isWs (dl l).reverse
    have h1 := congrArg List.reverse h0
    rw [List.reverse_append, List.reverse_reverse] at h1
    exact h1.symm
  have hws : ∀ c ∈ ((dl l).reverse.takeWhile isWs).reverse, isWs c = true :=
    fun c hc => List.mem_takeWhile_imp (List.mem_reverse.mp hc)
  have hdt : '-' ∈ dt (dl l) := by
    rcases List.mem_append.mp (hsplit ▸ hmem) with h1 | h1
    · exact h1
    · exact absurd (hws _ h1) (by decide)
  calc pyStrip (afterFirstHyphen (pyStrip l))
      = pyStrip (afterFirstHyphen (dt (dl l))) := rfl
    _ = pyStrip (afterFirstHyphen (dt (dl l))
          ++ ((dl l).reverse.takeWhile isWs).reverse) :=
        (pyStrip_append_ws _ hws).symm
    _ = pyStrip (afterFirstHyphen (dt (dl l)
          ++ ((dl l).reverse.takeWhile isWs).reverse)) := by
        rw [afterFirstHyphen_append _ hdt]
    _ = pyStrip (afterFirstHyphen (dl l)) := by rw [← hsplit]
    _ = pyStrip (afterFirstHyphen l) := by rw [afterFirstHyphen_dl h]

theorem extractCore_eq_spec (l : List Char) :
    extractCore l = extractNameSpec l := by
  unfold extractCore extractNameSpec
  by_cases h : '-' ∈ l
  · have hc : ((pyStrip l).contains '-' : Prop) := by
      rw [contains_pyStrip (by decide) l]
      exact List.elem_iff.mpr h
    have hc2 : (l.contains '-' : Prop) := List.elem_iff.mpr h
    rw [if_pos hc, if_pos hc2, extract_strip_commute h]
  · have hc2 : ¬ (l.contains '-' : Prop) := fun hx => h (List.elem_iff.mp hx)
    have hc : ¬ ((pyStrip l).contains '-' : Prop) := by
      rw [contains_pyStrip (by decide) l]
      exact hc2
    rw [if_neg hc, if_neg hc2, pyStrip_idem]

/-! ### Substring-search lemmas for the session classifier -/

theorem containsSub_iff (pat l : List Char) :
    containsSub pat l = true ↔ pat <:+: l := by
  unfold containsSub
  rw [List.any_eq_true]
  constructor
  · rintro ⟨t, ht, hp⟩
    exact (List.isPrefixOf_iff_prefix.mp hp).isInfix.trans
      ((List.mem_tails t l).mp ht).isInfix
  · intro h
    rcases List.infix_iff_prefix_suffix.mp h with ⟨t, h1, h2⟩
    exact ⟨t, (List.mem_tails t l).mpr h2, List.isPrefixOf_iff_prefix.mpr h1⟩

theorem infix_dl {pat l : List Char} (hne : pat ≠ [])
    (hws : ∀ c ∈ pat, isWs c = false) (h : pat <:+: l) : pat <:+: dl l := by
  induction l with
  | nil => exact absurd (by simpa using h) hne
  | cons c cs ih =>
    by_cases hc : isWs c = true
    · have h2 : pat <:+: cs := by
        rcases List.infix_cons_iff.mp h with h1 | h1
        · rcases pat with _ | ⟨p0, pr⟩
          · exact absurd rfl hne
          · rcases h1 with ⟨t, ht⟩
            rw [List.cons_append] at ht
            injection ht with h3 h4
            rw [← h3] at hc
            rw [hws p0 (List.mem_cons_self p0 pr)] at hc
            cases hc
        · exact h1
      rw [dl_cons_ws cs hc]
      exact ih h2
    · rw [dl_cons_not_ws cs (by simpa using hc)]
      exact h

theorem infix_pyStrip {pat l : List Char} (hne : pat ≠ [])
    (hws : ∀ c ∈ pat, isWs c = false) (h : pat <:+: l) :
    pat <:+: pyStrip l := by
  have h1 : pat <:+: dl l := infix_dl hne hws h
  have h2 : pat.reverse <:+: (dl l).reverse := List.reverse_infix.mpr h1
  have h3 : pat.reverse <:+: dl (dl l).reverse :=
    infix_dl (by simpa using hne)
      (fun c hc => hws c (List.mem_reverse.mp hc)) h2
  have h4 : pat <:+: (dl (dl l).reverse).reverse := by
    refine List.reverse_infix.mp ?_
    simpa using h3
  simpa [pyStrip, dt] using h4

/-! ### C1 -- name extraction -/

/-- C1: for every event title, `extract_patient_name` returns the
substring after the first hyphen (or the whole title when no hyphen is
present), trimmed, truncated at the first digit, `(` or `（`, and
trimmed again (`extractNameSpec`, worded from the specification); in
particular the three documented examples hold. -/
theorem extract_name_matches_spec :
    (∀ t : String, extract_patient_name t = String.mk (extractNameSpec t.data))
    ∧ extract_patient_name "8外- 張駿之 2 (1F)" = "張駿之"
    ∧ extract_patient_name "門診-王小明(新患)" = "王小明"
    ∧ extract_patient_name "8外- 李家森" = "李家森" :=
  ⟨fun t => congrArg String.mk (extractCore_eq_spec t.data),
    by decide, by decide, by decide⟩

/-! ### C2 -- session classifier precedence -/

/-- C2: a title containing `45` always classifies as one forty-five
minute unit, whatever else the title holds, and the four documented
examples of the precedence chain (`45` beats `+`-compounds beats the
trailing digit beats the half-hour default) evaluate as stated. -/
theorem classify_precedence :
    (∀ t : String, ['4', '5'] <:+: t.data →
      count_session_from_title t = (0, 0, 1))
    ∧ count_session_from_title "個人-測試 45分鐘" = (0, 0, 1)
    ∧ count_session_from_title "個人-測試 2+1" = (1, 1, 0)
    ∧ count_session_from_title "個人-測試 2" = (1, 0, 0)
    ∧ count_session_from_title "個人-測試" = (0, 1, 0) := by
  refine ⟨?_, by decide, by decide, by decide, by decide⟩
  intro t h
  have h4 : (['4', '5'] : List Char) <:+: pyStrip t.data :=
    infix_pyStrip (by decide) (by decide) h
  have h5 : contains45 (pyStrip t.data) = true := (containsSub_iff _ _).mpr h4
  unfold count_session_from_title
  rw [if_pos h5]

/-- C2 witness: the quantified 45-rule applied at a concrete title. -/
theorem classify_precedence_witness :
    count_session_from_title "個人-測試45" = (0, 0, 1) :=
  classify_precedence.1 "個人-測試45" (by decide)

/-! ### C3 -- the trailing-digit rule -/

/-- C3 counterexample: on the very shape the claim describes -- a
trailing digit followed by a parenthetical annotation -- the code does
NOT map the digit `2` to a one-hour unit: the trailing-digit regex
`(\d)\s*$` requires the digit to be the last non-whitespace character,
so `"門診-王小明 2 (1F)"` falls through to the half-hour default. -/
theorem trailing_digit_paren_counterexample :
    count_session_from_title "門診-王小明 2 (1F)" = (0, 1, 0)
    ∧ count_session_from_title "門診-王小明 2 (1F)" ≠ (1, 0, 0) := by
  constructor
  · decide
  · decide

/-- C3 amended: in the absence of a `45` and of a `+`-compound, the
trailing-digit rule fires only when the last non-whitespace character
of the stripped title is itself a digit (a parenthetical annotation
after the digit defeats it); that digit maps `2` to one one-hour unit
and every other digit, `1` included, to one half-hour unit (for `1` by
the explicit branch, otherwise by falling through to the default). -/
theorem trailing_digit_rule (t : String) (c : Char)
    (h45 : ¬ (['4', '5'] <:+: t.data))
    (hm : findMultiStart (pyStrip t.data) = none)
    (hl : lastNonWs (pyStrip t.data) = some c)
    (hd : c.isDigit = true) :
    count_session_from_title t =
      if digitVal c = 2 then (1, 0, 0) else (0, 1, 0) := by
  have h45s : contains45 (pyStrip t.data) = false := by
    rcases hb : contains45 (pyStrip t.data) with _ | _
    · rfl
    · exact absurd (((containsSub_iff _ _).mp hb).trans (pyStrip_isInfix t.data))
        h45
  unfold count_session_from_title
  rw [if_neg (by simp [h45s]), hm, hl]
  simp only [hd, if_true]
  by_cases h2 : digitVal c = 2
  · rw [if_pos h2, if_pos h2]
  · rw [if_neg h2, if_neg h2, ite_self]

/-- C3 witness: a bare trailing `2` (no annotation) does classify as
one one-hour unit. -/
theorem trailing_digit_rule_witness :
    count_session_from_title "門診-王小明 2" = (1, 0, 0) := by
  have h := trailing_digit_rule "門診-王小明 2" '2' (by decide) (by decide)
    (by decide) (by decide)
  simpa using h

/-! ### C4 -- the monthly aggregation has no hyphen gate -/

theorem addT_zero (a : Nat × Nat × Nat) : addT a (0, 0, 0) = a := by
  simp [addT]

theorem addT_assoc (a b c : Nat × Nat × Nat) :
    addT (addT a b) c = addT a (addT b c) := by
  simp [addT, Nat.add_assoc]

theorem stepT_eq_addT (a : Nat × Nat × Nat) (e : Ev) :
    stepT a e = addT a (count_session_from_title e.summary) := rfl

theorem stepT_zero (e : Ev) :
    stepT (0, 0, 0) e = count_session_from_title e.summary := by
  simp [stepT]

theorem foldl_stepT_shift :
    ∀ (evs : List Ev) (a : Nat × Nat × Nat),
      evs.foldl stepT a = addT a (evs.foldl stepT (0, 0, 0)) := by
  intro evs
  induction evs with
  | nil => intro a; exact (addT_zero a).symm
  | cons e es ih =>
    intro a
    rw [List.foldl_cons, List.foldl_cons, ih (stepT a e),
      ih (stepT (0, 0, 0) e), stepT_eq_addT, stepT_zero, addT_assoc]

/-- C4 counterexample: an event whose title has no hyphen is NOT
excluded from the monthly tallies -- `summarize_month` classifies it
and it contributes one half-hour unit. -/
theorem no_hyphen_counted_counterexample :
    ("午休".data.contains '-' = false)
    ∧ summarize_month [⟨"午休", ""⟩] = (0, 1, 0)
    ∧ summarize_month [⟨"午休", ""⟩] ≠ (0, 0, 0) := by
  refine ⟨by decide, by decide, by decide⟩

/-- C4 amended: `summarize_month` applies the classifier to every
event unconditionally -- there is no hyphen filter anywhere in the
monthly pipeline (the hyphen skip exists only in the daily reminder
loop) -- so each event contributes exactly its classifier increment,
and a hyphen-less cue-less title such as `"午休"` contributes one
half-hour unit. -/
theorem summarize_month_no_gate :
    (∀ (ev : Ev) (evs : List Ev),
      summarize_month (ev :: evs)
        = addT (count_session_from_title ev.summary) (summarize_month evs))
    ∧ summarize_month [⟨"午休", ""⟩] = (0, 1, 0) := by
  refine ⟨fun ev evs => ?_, by decide⟩
  show (ev :: evs).foldl stepT (0, 0, 0) = _
  rw [List.foldl_cons, foldl_stepT_shift evs (stepT (0, 0, 0) ev), stepT_zero]
  rfl

/-! ### C5 -- the monthly trigger day -/

/-- C5 counterexample: neither documented trigger day triggers, and the
actual trigger day is neither of them.  In January 2024
(`daysInMonth = 31`) the run does nothing on day 1 and on day 30 (the
second-to-last day), yet proceeds on day 31. -/
theorem trigger_day_counterexample :
    monthly_main_window ⟨2024, 1, 1⟩ = none
    ∧ monthly_main_window ⟨2024, 1, 30⟩ = none
    ∧ 30 = daysInMonth 2024 1 - 1
    ∧ monthly_main_window ⟨2024, 1, 31⟩ ≠ none
    ∧ 31 ≠ 1 ∧ 31 ≠ daysInMonth 2024 1 - 1 := by
  refine ⟨by decide, by decide, by decide, by decide, by decide, by decide⟩

/-- C5 amended: a scheduled monthly run proceeds past the guard exactly
when `now` is the LAST day of its month (`day = daysInMonth`), in which
case it fetches the current full-month window; on every other day it
returns before fetching or sending anything. -/
theorem monthly_guard_last_day (d : Date) (hv : d.Valid) :
    (monthly_main_window d = some (month_range d)
      ↔ d.day = daysInMonth d.year d.month)
    ∧ (d.day ≠ daysInMonth d.year d.month → monthly_main_window d = none) := by
  obtain ⟨h1, h2, h3, h4⟩ := hv
  have hlast : is_last_day_of_month d = true
      ↔ d.day = daysInMonth d.year d.month := by
    unfold is_last_day_of_month nextDay
    by_cases h : d.day < daysInMonth d.year d.month
    · rw [if_pos h]
      simp only [decide_eq_true_eq]
      constructor
      · intro hx; exact absurd rfl hx
      · intro hx; omega
    · rw [if_neg h]
      have hd : d.day = daysInMonth d.year d.month := by omega
      by_cases hm : d.month < 12
      · rw [if_pos hm]
        simp only [decide_eq_true_eq]
        constructor
        · intro _; exact hd
        · intro _; omega
      · rw [if_neg hm]
        simp only [decide_eq_true_eq]
        constructor
        · intro _; exact hd
        · intro _; omega
  constructor
  · constructor
    · intro hx
      apply hlast.mp
      by_contra hc
      have : monthly_main_window d = none := by
        unfold monthly_main_window
        rw [if_neg (by simpa using hc)]
      rw [this] at hx
      cases hx
    · intro hx
      unfold monthly_main_window
      rw [if_pos (hlast.mpr hx)]
  · intro hx
    unfold monthly_main_window
    rw [if_neg fun hc => hx (hlast.mp hc)]

/-- C5 witness: the amended guard at 2024-01-31, the last day of a
31-day month. -/
theorem monthly_guard_last_day_witness :
    monthly_main_window ⟨2024, 1, 31⟩ = some (month_range ⟨2024, 1, 31⟩) :=
  (monthly_guard_last_day ⟨2024, 1, 31⟩ (by decide)).1.mpr (by decide)

/-! ### C6 -- the month window -/

/-- C6: for every date, the current-full-month window runs from the
first of the month to the first of the following month, a half-open
interval with `start < end`, correct across the December-to-January
rollover; February 2024 ends at 2024-03-01 (a 29-day leap February)
and February 2023 ends at 2023-03-01 (28 days). -/
theorem month_range_window :
    (∀ d : Date, dateLt (month_range d).1 (month_range d).2)
    ∧ (∀ y day : Nat, (month_range ⟨y, 12, day⟩).2 = ⟨y + 1, 1, 1⟩)
    ∧ month_range ⟨2024, 2, 1⟩ = (⟨2024, 2, 1⟩, ⟨2024, 3, 1⟩)
    ∧ daysInMonth 2024 2 = 29
    ∧ month_range ⟨2023, 2, 1⟩ = (⟨2023, 2, 1⟩, ⟨2023, 3, 1⟩)
    ∧ daysInMonth 2023 2 = 28 := by
  refine ⟨?_, ?_, by decide, by decide, by decide, by decide⟩
  · intro d
    by_cases h : d.month = 12
    · have he : month_range d = (⟨d.year, d.month, 1⟩, ⟨d.year + 1, 1, 1⟩) := by
        unfold month_range
        rw [if_pos h]
      rw [he]
      exact Or.inl (Nat.lt_succ_self d.year)
    · have he : month_range d
          = (⟨d.year, d.month, 1⟩, ⟨d.year, d.month + 1, 1⟩) := by
        unfold month_range
        rw [if_neg h]
      rw [he]
      exact Or.inr ⟨rfl, Or.inl (Nat.lt_succ_self d.month)⟩
  · intro y day
    rfl

/-! ### Daily-loop accumulation lemmas -/

theorem mem_processEvent {br bd : List (String × String)}
    {pr : String → Option String} {nf : List String} {ev : Ev} {x : String}
    (h : x ∈ nf) : x ∈ processEvent br bd pr nf ev := by
  unfold processEvent
  split
  · exact h
  · split
    · exact h
    · split
      · split
        · split
          · exact h
          · exact List.mem_append_left _ h
        · exact List.mem_append_left _ h
      · exact List.mem_append_left _ h

theorem mem_foldl_processEvent {br bd : List (String × String)}
    {pr : String → Option String} {x : String} :
    ∀ (evs : List Ev) (nf : List String), x ∈ nf →
      x ∈ evs.foldl (processEvent br bd pr) nf := by
  intro evs
  induction evs with
  | nil => intro nf h; simpa using h
  | cons e es ih =>
    intro nf h
    rw [List.foldl_cons]
    exact ih _ (mem_processEvent h)

theorem unmatched_mem_foldl {br bd : List (String × String)}
    {pr : String → Option String} {ev : Ev}
    (hhy : ev.summary.data.contains '-' = true)
    (hname : extract_patient_name ev.summary ≠ "")
    (hlk : lookupUid br bd (extract_patient_name ev.summary) = none) :
    ∀ (evs : List Ev) (nf : List String), ev ∈ evs →
      extract_patient_name ev.summary
        ∈ evs.foldl (processEvent br bd pr) nf := by
  intro evs
  induction evs with
  | nil => intro nf h; simp at h
  | cons e es ih =>
    intro nf h
    rw [List.foldl_cons]
    rcases List.mem_cons.mp h with h1 | h1
    · subst h1
      apply mem_foldl_processEvent
      unfold processEvent
      rw [if_neg (by simp only [hhy]; decide), if_neg hname, hlk]
      exact List.mem_append_right _ (by simp)
    · exact ih _ h1

theorem pushfail_mem_foldl {br bd : List (String × String)}
    {pr : String → Option String} {ev : Ev} {u e : String}
    (hhy : ev.summary.data.contains '-' = true)
    (hname : extract_patient_name ev.summary ≠ "")
    (hlk : lookupUid br bd (extract_patient_name ev.summary) = some u)
    (hu : u ≠ "") (hp : pr u = some e) :
    ∀ (evs : List Ev) (nf : List String), ev ∈ evs →
      (extract_patient_name ev.summary ++ "（推播失敗：" ++ e ++ "）")
        ∈ evs.foldl (processEvent br bd pr) nf := by
  intro evs
  induction evs with
  | nil => intro nf h; simp at h
  | cons e0 es ih =>
    intro nf h
    rw [List.foldl_cons]
    rcases List.mem_cons.mp h with h1 | h1
    · subst h1
      apply mem_foldl_processEvent
      unfold processEvent
      rw [if_neg (by simp only [hhy]; decide), if_neg hname, hlk]
      show extract_patient_name ev.summary ++ "（推播失敗：" ++ e ++ "）"
        ∈ if u ≠ "" then
            (match pr u with
             | none => nf
             | some e2 =>
               nf ++ [extract_patient_name ev.summary
                 ++ "（推播失敗：" ++ e2 ++ "）"])
          else nf ++ [extract_patient_name ev.summary]
      rw [if_pos hu, hp]
      exact List.mem_append_right _ (by simp)
    · exact ih _ h1

/-! ### String-order lemmas for `sorted(set(...))` -/

theorem strLeB_total : ∀ a b : List Char, strLeB a b = true ∨ strLeB b a = true
  | [], _ => Or.inl rfl
  | _ :: _, [] => Or.inr rfl
  | x :: xs, y :: ys => by
    rcases Nat.lt_trichotomy x.toNat y.toNat with h | h | h
    · left
      rw [strLeB, if_pos h]
    · rcases strLeB_total xs ys with h2 | h2
      · left
        rw [strLeB, if_neg (by omega), if_neg (by omega)]
        exact h2
      · right
        rw [strLeB, if_neg (by omega), if_neg (by omega)]
        exact h2
    · right
      rw [strLeB, if_pos h]

theorem strLeB_trans : ∀ a b c : List Char,
    strLeB a b = true → strLeB b c = true → strLeB a c = true
  | [], _, _ => fun _ _ => rfl
  | x :: xs, [], _ => fun hab _ => by rw [strLeB] at hab; cases hab
  | x :: xs, y :: ys, [] => fun _ hbc => by rw [strLeB] at hbc; cases hbc
  | x :: xs, y :: ys, z :: zs => fun hab hbc => by
    rw [strLeB] at hab hbc ⊢
    by_cases h1 : x.toNat < y.toNat
    · have h2 : y.toNat ≤ z.toNat := by
        by_cases hy : y.toNat < z.toNat
        · omega
        · by_cases hz : z.toNat < y.toNat
          · rw [if_neg hy, if_pos hz] at hbc
            cases hbc
          · omega
      rw [if_pos (by omega)]
    · by_cases h2 : y.toNat < x.toNat
      · rw [if_neg h1, if_pos h2] at hab
        cases hab
      · have hxy : x.toNat = y.toNat := by omega
        rw [if_neg h1, if_neg h2] at hab
        by_cases h3 : y.toNat < z.toNat
        · rw [if_pos (by omega)]
        · by_cases h4 : z.toNat < y.toNat
          · rw [if_neg h3, if_pos h4] at hbc
            cases hbc
          · rw [if_neg h3, if_neg h4] at hbc
            rw [if_neg (by omega), if_neg (by omega)]
            exact strLeB_trans xs ys zs hab hbc

/-! ### C7 -- matching precedence and the follow-up list -/

/-- C7: the daily matcher looks an extracted name up in the real-name
map first and falls back to the display-name map only when the
real-name map has no entry (so a name registered under both resolves
to the real-name recipient); a name found in neither map is
accumulated into the `not_found` list -- the list rendered into the
operator digest -- rather than dropped. -/
theorem match_precedence_and_followup :
    (∀ (byReal byDisp : List (String × String)) (name u : String),
      dget byReal name = some u → u ≠ "" →
      lookupUid byReal byDisp name = some u)
    ∧ (∀ (byReal byDisp : List (String × String)) (name : String),
      dget byReal name = none →
      lookupUid byReal byDisp name = dget byDisp name)
    ∧ (∀ (byReal byDisp : List (String × String))
        (pr : String → Option String) (evs : List Ev) (ev : Ev),
      ev ∈ evs →
      ev.summary.data.contains '-' = true →
      extract_patient_name ev.summary ≠ "" →
      dget byReal (extract_patient_name ev.summary) = none →
      dget byDisp (extract_patient_name ev.summary) = none →
      extract_patient_name ev.summary ∈ daily_not_found byReal byDisp pr evs
      ∧ extract_patient_name ev.summary
          ∈ sortedDedup (daily_not_found byReal byDisp pr evs)) := by
  refine ⟨?_, ?_, ?_⟩
  · intro byReal byDisp name u h hu
    unfold lookupUid pyOr
    rw [h]
    rw [if_pos (by simp [truthy, hu])]
  · intro byReal byDisp name h
    unfold lookupUid pyOr
    rw [h]
    rfl
  · intro byReal byDisp pr evs ev hmem hhy hname hr hd
    have hlk : lookupUid byReal byDisp (extract_patient_name ev.summary)
        = none := by
      unfold lookupUid pyOr
      rw [hr, hd]
      rfl
    have h1 : extract_patient_name ev.summary
        ∈ daily_not_found byReal byDisp pr evs :=
      unmatched_mem_foldl hhy hname hlk evs [] hmem
    refine ⟨h1, ?_⟩
    unfold sortedDedup
    rw [List.Perm.mem_iff (List.perm_insertionSort _ _), List.mem_dedup]
    exact h1

/-- C7 witness: a name present in both maps resolves to the real-name
recipient, and a name present in neither lands in the follow-up list. -/
theorem match_precedence_and_followup_witness :
    lookupUid [("王小明", "U7")] [("王小明", "U9")] "王小明" = some "U7"
    ∧ extract_patient_name "8外- 李家森"
        ∈ daily_not_found [("王小明", "U7")] [("王小明", "U9")]
            (fun _ => none) [⟨"8外- 李家森", ""⟩] :=
  ⟨match_precedence_and_followup.1 [("王小明", "U7")] [("王小明", "U9")]
      "王小明" "U7" (by decide) (by decide),
    (match_precedence_and_followup.2.2 [("王小明", "U7")] [("王小明", "U9")]
      (fun _ => none) [⟨"8外- 李家森", ""⟩] ⟨"8外- 李家森", ""⟩ (by simp)
      (by decide) (by decide) (by decide) (by decide)).1⟩

/-! ### C8 -- per-recipient delivery isolation -/

/-- C8: the admin delivery loop catches each per-recipient failure and
continues, so every recipient whose push succeeds receives the report
whatever happened to the recipients before it, and the loop (a total
function) always completes; in particular with two recipients the
second one's delivery succeeds even when the first one's raised. -/
theorem delivery_isolated :
    (∀ (pr : String → Option String) (uids : List String) (u : String),
      u ∈ uids → pr u = none → u ∈ send_admin_report pr uids)
    ∧ (∀ (pr : String → Option String) (a b e : String),
      pr a = some e → pr b = none → b ∈ send_admin_report pr [a, b]) := by
  constructor
  · intro pr uids
    induction uids with
    | nil => intro u h _; simp at h
    | cons v vs ih =>
      intro u h hu
      rcases List.mem_cons.mp h with h1 | h1
      · subst h1
        unfold send_admin_report
        rw [hu]
        exact List.mem_cons_self u _
      · unfold send_admin_report
        rcases hv : pr v with _ | ev
        · exact List.mem_cons_of_mem v (ih u h1 hu)
        · exact ih u h1 hu
  · intro pr a b e ha hb
    unfold send_admin_report
    rw [ha]
    show b ∈ send_admin_report pr [b]
    unfold send_admin_report
    rw [hb]
    exact List.mem_cons_self b _

/-- C8 witness: recipient `B` still receives the report when delivery
to recipient `A` raised. -/
theorem delivery_isolated_witness :
    "B" ∈ send_admin_report
      (fun u => if u = "A" then some "boom" else none) ["A", "B"] :=
  delivery_isolated.2 (fun u => if u = "A" then some "boom" else none)
    "A" "B" "boom" (by decide) (by decide)

/-! ### C10 -- the rendered follow-up section -/

/-- C10: the follow-up section of the operator digest renders exactly
`sorted(set(not_found))` -- a list that is sorted in code-point
lexicographic order, duplicate-free, and holds precisely the
accumulated entries -- and a matched patient whose push raised is
recorded in that same list annotated with the failure text, so
patient-level delivery failures surface in the digest. -/
theorem followup_sorted_dedup_and_failures :
    (∀ nf : List String,
      (sortedDedup nf).Sorted (fun a b => pyStrLe a b = true)
      ∧ (sortedDedup nf).Nodup
      ∧ ∀ x, x ∈ sortedDedup nf ↔ x ∈ nf)
    ∧ (∀ (base : String) (nf : List String), nf ≠ [] →
      build_admin_text base nf
        = base ++ "\n\n【待補名單】\n- "
            ++ String.intercalate "\n- " (sortedDedup nf))
    ∧ (∀ (byReal byDisp : List (String × String))
        (pr : String → Option String) (evs : List Ev) (ev : Ev)
        (u e : String),
      ev ∈ evs →
      ev.summary.data.contains '-' = true →
      extract_patient_name ev.summary ≠ "" →
      lookupUid byReal byDisp (extract_patient_name ev.summary) = some u →
      u ≠ "" → pr u = some e →
      (extract_patient_name ev.summary ++ "（推播失敗：" ++ e ++ "）")
        ∈ daily_not_found byReal byDisp pr evs
      ∧ (extract_patient_name ev.summary ++ "（推播失敗：" ++ e ++ "）")
        ∈ sortedDedup (daily_not_found byReal byDisp pr evs)) := by
  have hperm : ∀ nf : List String, List.Perm (sortedDedup nf) nf.dedup :=
    fun nf => List.perm_insertionSort _ _
  refine ⟨?_, ?_, ?_⟩
  · intro nf
    haveI htot : IsTotal String (fun a b => pyStrLe a b = true) :=
      ⟨fun a b => strLeB_total a.data b.data⟩
    haveI htr : IsTrans String (fun a b => pyStrLe a b = true) :=
      ⟨fun a b c hab hbc => strLeB_trans a.data b.data c.data hab hbc⟩
    refine ⟨List.sorted_insertionSort _ _, ?_, ?_⟩
    · exact (hperm nf).nodup_iff.mpr (List.nodup_dedup nf)
    · intro x
      rw [List.Perm.mem_iff (hperm nf), List.mem_dedup]
  · intro base nf h
    unfold build_admin_text
    rw [if_neg h]
  · intro byReal byDisp pr evs ev u e hmem hhy hname hlk hu hp
    have h1 : (extract_patient_name ev.summary ++ "（推播失敗：" ++ e ++ "）")
        ∈ daily_not_found byReal byDisp pr evs :=
      pushfail_mem_foldl hhy hname hlk hu hp evs [] hmem
    refine ⟨h1, ?_⟩
    rw [List.Perm.mem_iff (hperm _), List.mem_dedup]
    exact h1

/-- C10 witness: one event whose matched push raises lands in the
follow-up list with the failure annotation. -/
theorem followup_sorted_dedup_and_failures_witness :
    (extract_patient_name "門診-王小明" ++ "（推播失敗：" ++ "ERR" ++ "）")
      ∈ daily_not_found [("王小明", "U1")] []
          (fun u => if u = "U1" then some "ERR" else none)
          [⟨"門診-王小明", ""⟩] :=
  (followup_sorted_dedup_and_failures.2.2 [("王小明", "U1")] []
    (fun u => if u = "U1" then some "ERR" else none) [⟨"門診-王小明", ""⟩]
    ⟨"門診-王小明", ""⟩ "U1" "ERR" (by simp) (by decide) (by decide)
    (by decide) (by decide) (by decide)).1

/-! ### C9 -- registry upsert/read round-trip -/

theorem strip_strip (s : String) : strip (strip s) = strip s :=
  congrArg String.mk (pyStrip_idem s.data)

theorem read_patients_eq_map {sheet : List Row}
    (h : ∀ r ∈ sheet, strip r.uid ≠ "") :
    read_patients sheet
      = sheet.map fun r => ⟨strip r.dn, strip r.rn, strip r.uid⟩ := by
  induction sheet with
  | nil => rfl
  | cons r rs ih =>
    have hr : strip r.uid ≠ "" := h r (List.mem_cons_self r rs)
    show List.filterMap _ (r :: rs) = _
    rw [List.filterMap_cons, if_pos hr]
    show (⟨strip r.dn, strip r.rn, strip r.uid⟩ : Patient)
        :: read_patients rs = _
    rw [List.map_cons, ih fun x hx => h x (List.mem_cons_of_mem r hx)]

/-- C9 counterexample: the round-trip does not return the supplied
displayName verbatim -- `read_patients` strips each cell -- and an
all-whitespace externalId is filtered out of the read entirely, so the
claim's unrestricted quantification over displayName/externalId fails. -/
theorem registry_upsert_counterexample :
    ((⟨"Bob ", "", "U1"⟩ : Patient)
        ∉ read_patients (upsert_patient "Bob " "U1" []))
    ∧ read_patients (upsert_patient "Bob " "U1" []) = [⟨"Bob", "", "U1"⟩]
    ∧ read_patients (upsert_patient "Bob" " " []) = [] := by
  refine ⟨by decide, by decide, by decide⟩

/-- C9 amended: for a trimmed displayName and a trimmed non-empty
externalId, over a sheet whose rows all carry a non-blank userId: an
upsert of an externalId absent from the registry appends exactly the
record `⟨displayName, "", externalId⟩` to the subsequent read, and an
upsert of an externalId found at (filtered) index `i` rewrites that
record's displayName while preserving its realName, leaving every
other record unchanged. -/
theorem registry_upsert_roundtrip (sheet : List Row) (dn uid : String)
    (hinv : ∀ r ∈ sheet, strip r.uid ≠ "")
    (hdn : strip dn = dn) (huid : strip uid = uid) (hne : uid ≠ "") :
    ((∀ p ∈ read_patients sheet, p.userId ≠ uid) →
      read_patients (upsert_patient dn uid sheet)
        = read_patients sheet ++ [⟨dn, "", uid⟩]
      ∧ (⟨dn, "", uid⟩ : Patient)
          ∈ read_patients (upsert_patient dn uid sheet))
    ∧ (∀ i,
      (read_patients sheet).findIdx? (fun r => r.userId = uid) = some i →
      read_patients (upsert_patient dn uid sheet)
        = (read_patients sheet).set i
            ⟨dn, ((read_patients sheet).getD i ⟨"", "", ""⟩).realName,
              uid⟩) := by
  constructor
  · intro habs
    have hnone : (read_patients sheet).findIdx?
        (fun r => r.userId = uid) = none := by
      rw [List.findIdx?_eq_none_iff]
      intro p hp
      exact decide_eq_false (habs p hp)
    have hup : upsert_patient dn uid sheet = sheet ++ [⟨dn, "", uid⟩] := by
      unfold upsert_patient
      rw [hnone]
    have hzero : strip "" = "" := rfl
    have heq : read_patients (sheet ++ [⟨dn, "", uid⟩])
        = read_patients sheet ++ [⟨dn, "", uid⟩] := by
      show List.filterMap _ _ = _
      rw [List.filterMap_append]
      have hone : read_patients [⟨dn, "", uid⟩] = [⟨dn, "", uid⟩] := by
        show List.filterMap _ _ = _
        rw [List.filterMap_cons, if_pos (by rw [huid]; exact hne)]
        show [(⟨strip dn, strip "", strip uid⟩ : Patient)] = _
        rw [hdn, huid, hzero]
      exact congrArg _ hone
    rw [hup, heq]
    exact ⟨rfl, List.mem_append_right _ (List.mem_cons_self _ _)⟩
  · intro i hfound
    have hup : upsert_patient dn uid sheet
        = sheet.set i
            ⟨dn, ((read_patients sheet).getD i ⟨"", "", ""⟩).realName,
              uid⟩ := by
      unfold upsert_patient
      rw [hfound]
    rw [hup]
    have hinv2 : ∀ r ∈ sheet.set i
        ⟨dn, ((read_patients sheet).getD i ⟨"", "", ""⟩).realName, uid⟩,
        strip r.uid ≠ "" := by
      intro r hr
      rcases List.mem_or_eq_of_mem_set hr with h1 | h1
      · exact hinv r h1
      · rw [h1]
        show strip uid ≠ ""
        rw [huid]
        exact hne
    have hrn2 : strip ((read_patients sheet).getD i ⟨"", "", ""⟩).realName
        = ((read_patients sheet).getD i ⟨"", "", ""⟩).realName := by
      rw [read_patients_eq_map hinv, List.getD_eq_getElem?_getD,
        List.getElem?_map]
      rcases hx : sheet[i]? with _ | r
      · rfl
      · show strip (strip r.rn) = strip r.rn
        exact strip_strip _
    rw [read_patients_eq_map hinv2, List.map_set,
      ← read_patients_eq_map hinv]
    show (read_patients sheet).set i
        ⟨strip dn,
          strip ((read_patients sheet).getD i ⟨"", "", ""⟩).realName,
          strip uid⟩ = _
    rw [hdn, huid, hrn2]

/-- C9 witness: the amended round-trip on a one-row sheet, once for a
fresh externalId and once for the existing one. -/
theorem registry_upsert_roundtrip_witness :
    read_patients (upsert_patient "Bob" "U2" [⟨"Amy", "Rose", "U1"⟩])
      = read_patients [⟨"Amy", "Rose", "U1"⟩] ++ [⟨"Bob", "", "U2"⟩]
    ∧ read_patients (upsert_patient "New" "U1" [⟨"Amy", "Rose", "U1"⟩])
      = (read_patients [⟨"Amy", "Rose", "U1"⟩]).set 0
          ⟨"New",
            ((read_patients [⟨"Amy", "Rose", "U1"⟩]).getD 0
              ⟨"", "", ""⟩).realName, "U1"⟩ :=
  ⟨((registry_upsert_roundtrip [⟨"Amy", "Rose", "U1"⟩] "Bob" "U2"
      (by decide) (by decide) (by decide) (by decide)).1 (by decide)).1,
    (registry_upsert_roundtrip [⟨"Amy", "Rose", "U1"⟩] "New" "U1"
      (by decide) (by decide) (by decide) (by decide)).2 0 (by decide)⟩

end LineReminder
